import Mathlib

set_option maxRecDepth 8000

/- Verification development for the Question Checker extraction and
similarity engine.  The definitions below are a shallow embedding of the
Python sources (backend/utils.py and backend/main.py).  Strings are
modelled as lists of characters, floats as rationals, and the standard
library sequence matcher is embedded operation by operation. -/

/-- Whitespace characters recognised by the Python regular expression
class backslash-s and by str.strip for ASCII input. -/
def isPySpace (c : Char) : Bool :=
  c == ' ' || c == '\t' || c == '\n' || c == '\r' || c == Char.ofNat 11 || c == Char.ofNat 12

/-- Remove trailing whitespace, second half of str.strip. -/
def stripEnd (l : List Char) : List Char :=
  (l.reverse.dropWhile isPySpace).reverse

/-- Model of str.strip: remove leading and trailing whitespace. -/
def stripPy (l : List Char) : List Char :=
  stripEnd (l.dropWhile isPySpace)

/-- Model of str.lower for ASCII input. -/
def lowerL (l : List Char) : List Char :=
  l.map Char.toLower

/-- Helper for the whitespace-run substitution: the flag records whether
the previous character was inside a whitespace run already replaced. -/
def collapseAux : Bool → List Char → List Char
  | _, [] => []
  | inRun, c :: cs =>
    if isPySpace c then
      if inRun then collapseAux true cs else ' ' :: collapseAux true cs
    else c :: collapseAux false cs

/-- Model of re.sub applied with the whitespace-run pattern and a single
space replacement: every maximal whitespace run becomes one space. -/
def collapseWs (l : List Char) : List Char :=
  collapseAux false l

/-- Model of the local norm helper in main.py: strip, lowercase, collapse
whitespace runs.  utils.normalize computes the same composition. -/
def normL (l : List Char) : List Char :=
  collapseWs (lowerL (stripPy l))

/-- Model of utils.clean_text: strip then collapse whitespace runs. -/
def cleanTextL (l : List Char) : List Char :=
  collapseWs (stripPy l)

/-- Model of utils.clean_lower: clean_text then lowercase. -/
def cleanLowerL (l : List Char) : List Char :=
  lowerL (cleanTextL l)

/-- clean_lower on a whole string value. -/
def cleanLower (s : String) : List Char :=
  cleanLowerL s.data

/-- Boolean test that the first list starts the second one. -/
def isPre : List Char → List Char → Bool
  | [], _ => true
  | _ :: _, [] => false
  | c :: cs, d :: ds => c == d && isPre cs ds

/-- Model of the Python substring containment operator on strings. -/
def subIn (needle hay : List Char) : Bool :=
  (List.range (hay.length + 1)).any (fun k => isPre needle (hay.drop k))

/-- Helper for str.split: the accumulator holds the reversed current
word. -/
def wordsAux : List Char → List Char → List (List Char)
  | acc, [] => if acc = [] then [] else [acc.reverse]
  | acc, c :: cs =>
    if isPySpace c then
      if acc = [] then wordsAux [] cs else acc.reverse :: wordsAux [] cs
    else wordsAux (c :: acc) cs

/-- Model of str.split with no separator: whitespace-delimited words,
empty pieces discarded. -/
def wordsOf (l : List Char) : List (List Char) :=
  wordsAux [] l

/-- Character of a list at an index, with an irrelevant default. -/
def chAt (l : List Char) (i : Nat) : Char := l.getD i ' '

/-- Ascending list of the indices of b holding character c: the entry
the sequence matcher stores for c in its index table. -/
def positionsOf (b : List Char) (c : Char) : List Nat :=
  (List.range b.length).filter (fun j => chAt b j == c)

/-- The autojunk popularity rule of the sequence matcher: on a second
sequence of length at least 200, characters occupying more than one
percent (plus one) of it are dropped from the index table. -/
def isPopular (b : List Char) (c : Char) : Bool :=
  decide (200 ≤ b.length) && decide (b.length / 100 + 1 < b.count c)

/-- The b2j index table of the sequence matcher with autojunk enabled
and no explicit junk predicate. -/
def b2jOf (b : List Char) (c : Char) : List Nat :=
  if isPopular b c then [] else positionsOf b c

/-- A matching block: start in a, start in b, size. -/
structure Match3 where
  mi : Nat
  mj : Nat
  ms : Nat
deriving DecidableEq, Repr

/-- Length of the chain ending at j given the previous row map; the
value newj2len receives in find_longest_match. -/
def rowVal (j2l : Nat → Nat) : Nat → Nat
  | 0 => 1
  | j + 1 => j2l j + 1

/-- One candidate update of the running best match inside the inner
loop of find_longest_match. -/
def bumpBest (i : Nat) (j2l : Nat → Nat) (best : Match3) (j : Nat) : Match3 :=
  let k := rowVal j2l j
  if best.ms < k then ⟨i + 1 - k, j + 1 - k, k⟩ else best

/-- The j indices examined for one character: its b2j entry restricted
to the half-open search window. -/
def rowIdx (b2j : Char → List Nat) (blo bhi : Nat) (c : Char) : List Nat :=
  (b2j c).filter (fun j => decide (blo ≤ j) && decide (j < bhi))

/-- One row of the dynamic program of find_longest_match: build the new
chain-length map and fold the best-match update over the row. -/
def dpStep (a : List Char) (b2j : Char → List Nat) (blo bhi : Nat)
    (st : (Nat → Nat) × Match3) (i : Nat) : (Nat → Nat) × Match3 :=
  let js := rowIdx b2j blo bhi (chAt a i)
  (fun j => if js.contains j then rowVal st.1 j else 0,
   js.foldl (bumpBest i st.1) st.2)

/-- The full dynamic-programming phase of find_longest_match. -/
def dpLoop (a : List Char) (b2j : Char → List Nat) (alo ahi blo bhi : Nat) : Match3 :=
  ((List.range' alo (ahi - alo)).foldl (dpStep a b2j blo bhi) (fun _ => 0, ⟨alo, blo, 0⟩)).2

/-- Fuelled backward-extension loop; every iteration lowers the a-start
by one, so fuel equal to the a-start runs the loop to completion. -/
def extBackN (a b : List Char) (alo blo : Nat) : Nat → Match3 → Match3
  | 0, m => m
  | fuel + 1, m =>
    if alo < m.mi ∧ blo < m.mj ∧ chAt a (m.mi - 1) = chAt b (m.mj - 1) then
      extBackN a b alo blo fuel ⟨m.mi - 1, m.mj - 1, m.ms + 1⟩
    else m

/-- Backward extension of the best match by equal characters.  With no
junk predicate the junk set is empty, so the two backward loops of the
source collapse to this single one. -/
def extBack (a b : List Char) (alo blo : Nat) (m : Match3) : Match3 :=
  extBackN a b alo blo m.mi m

/-- Fuelled forward-extension loop; every iteration grows the match end
by one, so fuel equal to the room left before ahi runs it fully. -/
def extFwdN (a b : List Char) (ahi bhi : Nat) : Nat → Match3 → Match3
  | 0, m => m
  | fuel + 1, m =>
    if m.mi + m.ms < ahi ∧ m.mj + m.ms < bhi ∧ chAt a (m.mi + m.ms) = chAt b (m.mj + m.ms) then
      extFwdN a b ahi bhi fuel ⟨m.mi, m.mj, m.ms + 1⟩
    else m

/-- Forward extension of the best match by equal characters. -/
def extFwd (a b : List Char) (ahi bhi : Nat) (m : Match3) : Match3 :=
  extFwdN a b ahi bhi (ahi - (m.mi + m.ms)) m

/-- Model of SequenceMatcher.find_longest_match on a window. -/
def flm (a b : List Char) (b2j : Char → List Nat) (alo ahi blo bhi : Nat) : Match3 :=
  extFwd a b ahi bhi (extBack a b alo blo (dpLoop a b2j alo ahi blo bhi))

/-- Total size of all matching blocks: the recursion of
get_matching_blocks, summed.  The fuel argument bounds the recursion
depth; every level strictly shrinks the a-window, so any fuel of at
least the initial window length is enough. -/
def matchTotal (a b : List Char) (b2j : Char → List Nat) :
    Nat → Nat → Nat → Nat → Nat → Nat
  | 0, _, _, _, _ => 0
  | fuel + 1, alo, ahi, blo, bhi =>
    let m := flm a b b2j alo ahi blo bhi
    if m.ms = 0 then 0
    else
      (if alo < m.mi ∧ blo < m.mj then matchTotal a b b2j fuel alo m.mi blo m.mj else 0)
        + m.ms
        + (if m.mi + m.ms < ahi ∧ m.mj + m.ms < bhi then
            matchTotal a b b2j fuel (m.mi + m.ms) ahi (m.mj + m.ms) bhi
          else 0)

/-- Total matched size over the full sequences. -/
def ratioM (a b : List Char) : Nat :=
  matchTotal a b (b2jOf b) (a.length + b.length + 1) 0 a.length 0 b.length

/-- Model of utils.similarity_percentage: clean_lower both inputs,
return 0 when either is empty, otherwise the sequence-matcher ratio
scaled to percent. -/
def similarity_percentage (a b : String) : ℚ :=
  let x := cleanLower a
  let y := cleanLower b
  if x = [] ∨ y = [] then 0
  else 2 * (ratioM x y : ℚ) / ((x.length : ℚ) + (y.length : ℚ)) * 100

/-- Word characters of the regular-expression boundary class for ASCII
input: letters, digits and the underscore. -/
def isWordChar (c : Char) : Bool := c.isAlphanum || c == '_'

/-- The alternatives of the digit-token pattern of normalize_marks, in
the order the alternation tries them. -/
def digitToks : List (List Char × Nat) :=
  [("2".data, 2), ("4".data, 4), ("8".data, 8), ("16".data, 16)]

/-- Word boundary before position i: start of string, or a non-word
character just before (the pattern characters are word characters). -/
def preBdry (t : List Char) (i : Nat) : Bool :=
  decide (i = 0) || !isWordChar (chAt t (i - 1))

/-- Word boundary after position e, for a match ending right before e. -/
def postBdry (t : List Char) (e : Nat) : Bool :=
  decide (t.length ≤ e) || !isWordChar (chAt t e)

/-- Try the digit-token alternatives at one position, boundary checks
included; the first alternative that fits wins, as in the regex engine. -/
def tokAt (t : List Char) (i : Nat) : Option Nat :=
  if preBdry t i then
    digitToks.findSome? (fun wv =>
      if isPre wv.1 (t.drop i) && postBdry t (i + wv.1.length) then some wv.2 else none)
  else none

/-- Model of re.search for the standalone digit token: leftmost position
wins, alternation order decides within a position. -/
def digitTokSearch (t : List Char) : Option Nat :=
  (List.range t.length).findSome? (tokAt t)

/-- The English number words of normalize_marks in dictionary insertion
order, the order the fallback loop tries them. -/
def wordToks : List (List Char × Nat) :=
  [("two".data, 2), ("four".data, 4), ("eight".data, 8), ("sixteen".data, 16)]

/-- Model of utils.normalize_marks on a string input: clean_lower, then
the standalone digit token 2, 4, 8 or 16, then the number words as
substrings in fixed priority order, else none. -/
def normalize_marks (raw : String) : Option Nat :=
  let t := cleanLowerL raw.data
  match digitTokSearch t with
  | some v => some v
  | none => wordToks.findSome? (fun wv => if subIn wv.1 t then some wv.2 else none)

/-- Value of a digit run, as int() computes it on a digit-only string. -/
def digitsVal (ds : List Char) : Nat :=
  ds.foldl (fun n c => n * 10 + (c.toNat - 48)) 0

/-- Every character is whitespace. -/
def allSpace (l : List Char) : Bool := l.all isPySpace

/-- Accept the remainder after the literal mark: an optional s followed
by whitespace only, as the tail of the standalone-marks pattern. -/
def marksTail (r : List Char) : Bool :=
  allSpace r ||
    (match r with
     | 's' :: r2 => allSpace r2
     | _ => false)

/-- Model of the local marks_from_text helper of main.py: the whole
normalised cell must be whitespace, a digit run, whitespace, the word
mark with an optional s and trailing whitespace. -/
def marks_from_text (s : String) : Option Nat :=
  let t := normL s.data
  let t1 := t.dropWhile isPySpace
  let ds := t1.takeWhile Char.isDigit
  if ds = [] then none
  else
    let r1 := (t1.drop ds.length).dropWhile isPySpace
    if isPre "mark".data r1 then
      if marksTail (r1.drop 4) then some (digitsVal ds) else none
    else none

/-- The junk-label set of question_confidence, exactly as listed in the
source. -/
def junkLabels : List (List Char) :=
  ["question".data, "questions".data, "answer".data, "answers".data,
   "unit".data, "unit name".data, "topic".data,
   "bloom".data, "blooms taxonomy".data, "bloom taxonomy".data,
   "marks".data, "mark".data, "sl.no".data, "s.no".data, "sno".data]

/-- The question lead words of question_confidence. -/
def starterWords : List (List Char) :=
  ["what".data, "why".data, "how".data, "define".data, "explain".data, "write".data,
   "list".data, "describe".data, "differentiate".data, "compare".data, "state".data,
   "give".data]

/-- Model of the local question_confidence helper of main.py.  Floats
are modelled as rationals; every comparison the source makes is exact at
these values, so the model decides each branch as the float code does. -/
def question_confidence (text : String) : ℚ :=
  let t := stripPy text.data
  if t = [] then 0
  else
    let low := normL t
    if low ∈ junkLabels then 0
    else if low.length < 8 then 0
    else
      let s1 : ℚ := 2/10
      let s2 := if low.getLast? = some '?' then s1 + 4/10 else s1
      let s3 := if starterWords.any (fun w => isPre w low) then s2 + 3/10 else s2
      let wc := (wordsOf low).length
      let s4 := if 6 ≤ wc then s3 + 2/10 else s3
      let s5 := if 10 ≤ wc then s4 + 1/10 else s4
      let dg := (low.filter Char.isDigit).length
      let s6 := if 3 * low.length < 10 * dg then s5 - 3/10 else s5
      max 0 (min 1 s6)

/-- A loaded table: rows of cells, as the frame the loader produces. -/
abbrev Grid := List (List String)

/-- Number of rows of a grid. -/
def gRows (g : Grid) : Nat := g.length

/-- Number of columns of a grid; the loader pads short rows, so cells
beyond a row's physical end read as empty. -/
def gCols (g : Grid) : Nat := g.foldr (fun r m => max r.length m) 0

/-- Model of the cell accessor: the stored text, stripped. -/
def cellL (g : Grid) (r c : Nat) : List Char :=
  stripPy (((g.getD r []).getD c "").data)

/-- The cell accessor as a string value. -/
def cellStr (g : Grid) (r c : Nat) : String := String.mk (cellL g r c)

/-- norm of a cell, as the header scan computes it. -/
def normCell (g : Grid) (r c : Nat) : List Char := normL (cellL g r c)

/-- The header keyword. -/
def qKw : List Char := "question".data

/-- Header candidate rows: among the first 120 rows, those with a cell
whose normalised text contains the header keyword. -/
def headerRowsOf (g : Grid) : List Nat :=
  (List.range (min (gRows g) 120)).filter
    (fun r => (List.range (gCols g)).any (fun c => subIn qKw (normCell g r c)))

/-- Number of cells of a row containing the header keyword. -/
def qCount (g : Grid) (r : Nat) : Nat :=
  ((List.range (gCols g)).filter (fun c => subIn qKw (normCell g r c))).length

/-- Model of max over the candidate list keyed by qCount: the Python
max keeps the current holder on ties, so the earliest maximum wins. -/
def bestOf (g : Grid) (h : Nat) (t : List Nat) : Nat :=
  t.foldl (fun acc r => if qCount g acc < qCount g r then r else acc) h

/-- The selected header row, when any candidate exists. -/
def bestHeader (g : Grid) : Option Nat :=
  match headerRowsOf g with
  | [] => none
  | h :: t => some (bestOf g h t)

/-- Keywords of the four role searches. -/
def aKw : List Char := "answer".data

/-- Keyword of the bloom column search. -/
def bKw : List Char := "bloom".data

/-- First keyword of the unit column search. -/
def uKw : List Char := "unit".data

/-- Second keyword of the unit column search. -/
def tKw : List Char := "topic".data

/-- First keyword of the marks column search. -/
def mKw : List Char := "mark".data

/-- Second keyword of the marks column search. -/
def mKw2 : List Char := "marks".data

/-- Third keyword of the marks column search. -/
def sKw : List Char := "score".data

/-- The look-ahead window to the right of a question column: the columns
strictly between c and min (c + 12) cols, i.e. at most eleven columns. -/
def roleWindow (c cols : Nat) : List Nat :=
  List.range' (c + 1) (min (c + 12) cols - (c + 1))

/-- One column of the role-assignment loop of the block detector: each
role not yet fixed is fixed to this column when its keyword occurs in
the header text. -/
def roleStep (hdr : List (List Char))
    (st : Option Nat × Option Nat × Option Nat × Option Nat) (k : Nat) :
    Option Nat × Option Nat × Option Nat × Option Nat :=
  let hv := hdr.getD k []
  (if st.1 = none ∧ subIn aKw hv then some k else st.1,
   if st.2.1 = none ∧ subIn bKw hv then some k else st.2.1,
   if st.2.2.1 = none ∧ (subIn uKw hv || subIn tKw hv) then some k else st.2.2.1,
   if st.2.2.2 = none ∧ (subIn mKw hv || subIn mKw2 hv || subIn sKw hv) then some k
   else st.2.2.2)

/-- The role-assignment loop of the block detector: scan the window
left to right, fixing each role to the first column whose header text
contains one of its keywords. -/
def roleScan (hdr : List (List Char)) (cols c : Nat) :
    Option Nat × Option Nat × Option Nat × Option Nat :=
  (roleWindow c cols).foldl (roleStep hdr) (none, none, none, none)

/-- A detected column block. -/
structure ColBlock where
  qc : Nat
  ac : Option Nat
  bc : Option Nat
  uc : Option Nat
  mc : Option Nat
deriving DecidableEq, Repr

/-- One block per question column of the chosen header row. -/
def mkBlocks (hdr : List (List Char)) (cols : Nat) : List ColBlock :=
  (List.range cols).filterMap (fun c =>
    if subIn qKw (hdr.getD c []) then
      some ⟨c, (roleScan hdr cols c).1, (roleScan hdr cols c).2.1,
            (roleScan hdr cols c).2.2.1, (roleScan hdr cols c).2.2.2⟩
    else none)

/-- The seen-set pass deduplicating blocks by question column. -/
def uniqBlocks (bs : List ColBlock) : List ColBlock :=
  (bs.foldl
    (fun (st : List Nat × List ColBlock) b =>
      if st.1.contains b.qc then st else (b.qc :: st.1, st.2 ++ [b]))
    ([], [])).2

/-- One extracted candidate record. -/
structure CandidateRecord where
  question : String
  answer : String
  bloom : String
  unit : String
  marks_raw : String
  confidence : ℚ
deriving DecidableEq, Repr

/-- String form of the carry-forward marks state under Python truthiness:
both none and zero print as the empty string. -/
def marksRawStr : Option Nat → String
  | some m => if m = 0 then "" else toString m
  | none => ""

/-- All cells of one row, left to right. -/
def rowCells (g : Grid) (r : Nat) : List String :=
  (List.range (gCols g)).map (cellStr g r)

/-- The structured-mode marks scan of one row: the first cell matching
the standalone-marks pattern updates the state and stops the scan. -/
def structMarksScan : List String → Option Nat → Option Nat
  | [], cur => cur
  | x :: xs, cur =>
    match marks_from_text x with
    | some m => some m
    | none => structMarksScan xs cur

/-- Structured-mode emission for one row: one candidate per block whose
question cell scores at least the structured confidence bar. -/
def structEmit (g : Grid) (blocks : List ColBlock) (r : Nat) (cur : Option Nat) :
    List CandidateRecord :=
  blocks.filterMap (fun b =>
    let q := cellStr g r b.qc
    let conf := question_confidence q
    if conf < (45/100 : ℚ) then none
    else some
      { question := q
        answer := match b.ac with | some c => cellStr g r c | none => ""
        bloom := match b.bc with | some c => cellStr g r c | none => ""
        unit := match b.uc with | some c => cellStr g r c | none => ""
        marks_raw := match b.mc with | some c => cellStr g r c | none => marksRawStr cur
        confidence := conf })

/-- The structured extraction mode: row by row, marks scan first, then
block emission with the updated carry-forward state. -/
def structLoop (g : Grid) (blocks : List ColBlock) : List CandidateRecord :=
  ((List.range (gRows g)).foldl
    (fun (st : Option Nat × List CandidateRecord) r =>
      let cur := structMarksScan (rowCells g r) st.1
      (cur, st.2 ++ structEmit g blocks r cur))
    (none, [])).2

/-- One fallback-mode cell: a standalone-marks cell updates the state
and emits nothing, any other cell may emit a record against the current
state. -/
def fbStep (st : Option Nat × List CandidateRecord) (txt : String) :
    Option Nat × List CandidateRecord :=
  match marks_from_text txt with
  | some m => (some m, st.2)
  | none =>
    let conf := question_confidence txt
    if conf < (65/100 : ℚ) then st
    else (st.1, st.2 ++ [{ question := txt, answer := "", bloom := "", unit := "",
                           marks_raw := marksRawStr st.1, confidence := conf }])

/-- One fallback-mode row: every cell is visited in order. -/
def fallbackRow (cells : List String) (cur : Option Nat) :
    Option Nat × List CandidateRecord :=
  cells.foldl fbStep (cur, [])

/-- The fallback extraction mode over the whole grid. -/
def fallbackLoop (g : Grid) : List CandidateRecord :=
  ((List.range (gRows g)).foldl
    (fun (st : Option Nat × List CandidateRecord) r =>
      let p := fallbackRow (rowCells g r) st.1
      (p.1, st.2 ++ p.2))
    (none, [])).2

/-- The optional dedup pass: keep the first record of each non-empty
normalised question text. -/
def dedupePass (l : List CandidateRecord) : List CandidateRecord :=
  (l.foldl
    (fun (st : List (List Char) × List CandidateRecord) r =>
      let key := normL r.question.data
      if key = [] ∨ st.1.contains key then st else (key :: st.1, st.2 ++ [r]))
    ([], [])).2

/-- Model of parse_any_csv_questions on a loaded grid: detect a header,
build blocks, run the structured mode when blocks exist and the fallback
scan otherwise, then optionally deduplicate. -/
def parse_any_csv_questions (g : Grid) (dedupe : Bool) : List CandidateRecord :=
  let out :=
    match headerRowsOf g with
    | [] => fallbackLoop g
    | h :: t =>
      let best := bestOf g h t
      let hdr := (List.range (gCols g)).map (fun c => normCell g best c)
      match uniqBlocks (mkBlocks hdr (gCols g)) with
      | [] => fallbackLoop g
      | b :: bs => structLoop g (b :: bs)
  if dedupe then dedupePass out else out

/-- Model of classify_similarity. -/
def classify_similarity (score : ℚ) : String :=
  if 95 ≤ score then "duplicate"
  else if 50 ≤ score then "reframed"
  else "new"

/-- Model of band_label. -/
def band_label (score : ℚ) : String :=
  if 95 ≤ score then "high"
  else if 50 ≤ score then "medium"
  else "low"

/-- One corpus comparison of the best-match loop of
check_new_assessment: keep the strictly better score, so the first of
tied maxima stays. -/
def btStep (q : String) (acc : ℚ × String × String) (p : String × String) :
    ℚ × String × String :=
  let sc := similarity_percentage q p.1
  if acc.1 < sc then (sc, p.1, p.2) else acc

/-- The best-match loop of check_new_assessment over a corpus of
question and source-label pairs. -/
def bestTriple (q : String) (corpus : List (String × String)) : ℚ × String × String :=
  corpus.foldl (btStep q) (0, "", "")

/-- The matched-college field of a per-question detail: the best source
label, reported only when the best score reaches 50. -/
def matchedCollege (q : String) (corpus : List (String × String)) : String :=
  if 50 ≤ (bestTriple q corpus).1 then (bestTriple q corpus).2.2 else ""

/-- Run-length helper for the self-comparison proof: length of the
longest common surviving suffix of the prefixes ending at i and j of a
single sequence compared against itself. -/
def dsf (s : List Char) : Nat → Nat → Nat
  | 0, j => if chAt s j = chAt s 0 ∧ isPopular s (chAt s 0) = false then 1 else 0
  | i + 1, 0 => if chAt s 0 = chAt s (i + 1) ∧ isPopular s (chAt s (i + 1)) = false then 1 else 0
  | i + 1, j + 1 =>
    if chAt s (j + 1) = chAt s (i + 1) ∧ isPopular s (chAt s (i + 1)) = false then
      dsf s i j + 1
    else 0

/-- Maximum diagonal run value over the first k rows. -/
def mrun (s : List Char) : Nat → Nat
  | 0 => 0
  | k + 1 => max (mrun s k) (dsf s k k)

/-- The row index list of the self-comparison dynamic program. -/
def jsD (s : List Char) (i : Nat) : List Nat :=
  rowIdx (b2jOf s) 0 s.length (chAt s i)

/-- The chain-length map the dynamic program holds after k rows of the
self comparison. -/
def jval (s : List Char) : Nat → Nat → Nat
  | 0, _ => 0
  | k + 1, j => if (jsD s k).contains j then dsf s k j else 0

/-- The marks-state transition of one fallback-mode cell, used to
characterise the fallback scan. -/
def mStep (c : Option Nat) (txt : String) : Option Nat :=
  match marks_from_text txt with
  | some m => some m
  | none => c

/-- The apostrophe character, kept out of string literals. -/
def apoStr : String := String.mk [Char.ofNat 39]

/-- The junk label as the specification spells it, apostrophe included. -/
def bloomAposLabel : String := "bloom" ++ apoStr ++ "s taxonomy"

/-- A thirteen-column header whose answer column sits exactly twelve
columns to the right of the question column. -/
def hdr13 : List (List Char) :=
  ["question".data, [], [], [], [], [], [], [], [], [], [], [], "answer".data]

/-- A small grid with two header candidate rows of different keyword
counts. -/
def gHdrW : Grid := [["foo"], ["Question", "Question"], ["Question", "bar"]]

/-- A header-free grid whose marks rows carry the values zero and five. -/
def gMarksZero : Grid :=
  [["0 marks"], ["what is a binary tree used for?"],
   ["5 marks"], ["what is a linked list used for?"]]

/- Theorems.  Helper lemmas come first, then one theorem per claim with
its witness or counterexample. -/

theorem dropWhile_stripPy (l : List Char) :
    (stripPy l).dropWhile isPySpace = stripPy l := by
  unfold stripPy stripEnd
  cases hz : ((l.dropWhile isPySpace).reverse.dropWhile isPySpace).reverse with
  | nil => rfl
  | cons c cs =>
    have hpre : ((l.dropWhile isPySpace).reverse.dropWhile isPySpace).reverse
        <+: l.dropWhile isPySpace := by
      have := List.rdropWhile_prefix isPySpace (l.dropWhile isPySpace)
      simpa [List.rdropWhile] using this
    rw [hz] at hpre
    obtain ⟨t, ht⟩ := hpre
    have hw : (l.dropWhile isPySpace).dropWhile isPySpace = l.dropWhile isPySpace :=
      List.dropWhile_idempotent isPySpace l
    rw [← ht] at hw
    cases hcb : isPySpace c with
    | false => simp [List.dropWhile_cons, hcb]
    | true =>
      exfalso
      rw [List.cons_append, List.dropWhile_cons, hcb] at hw
      simp only [if_true] at hw
      have hle := (List.dropWhile_suffix (l := cs ++ t) isPySpace).length_le
      rw [hw] at hle
      simp at hle

theorem stripEnd_stripPy (l : List Char) : stripEnd (stripPy l) = stripPy l := by
  unfold stripPy stripEnd
  rw [List.reverse_reverse, List.dropWhile_idempotent]

theorem stripPy_idem (l : List Char) : stripPy (stripPy l) = stripPy l := by
  have h1 := dropWhile_stripPy l
  have h2 := stripEnd_stripPy l
  calc stripPy (stripPy l) = stripEnd ((stripPy l).dropWhile isPySpace) := rfl
    _ = stripEnd (stripPy l) := by rw [h1]
    _ = stripPy l := h2

theorem normL_stripPy (l : List Char) : normL (stripPy l) = normL l := by
  unfold normL
  rw [stripPy_idem]

/-- Claim C7: the classifier maps scores of at least 95 to duplicate,
scores in the band from 50 up to but excluding 95 to reframed and
scores below 50 to new; the band label mirrors the same thresholds with
high, medium and low; the four boundary examples evaluate as stated. -/
theorem claim_c7_classifier_bands :
    (∀ s : ℚ,
      (95 ≤ s → classify_similarity s = "duplicate") ∧
      (50 ≤ s → s < 95 → classify_similarity s = "reframed") ∧
      (s < 50 → classify_similarity s = "new") ∧
      (95 ≤ s → band_label s = "high") ∧
      (50 ≤ s → s < 95 → band_label s = "medium") ∧
      (s < 50 → band_label s = "low")) ∧
    classify_similarity 95 = "duplicate" ∧
    classify_similarity (9499/100) = "reframed" ∧
    classify_similarity 50 = "reframed" ∧
    classify_similarity (4999/100) = "new" := by
  refine ⟨fun s => ⟨fun h => ?_, fun h1 h2 => ?_, fun h => ?_,
      fun h => ?_, fun h1 h2 => ?_, fun h => ?_⟩, ?_, ?_, ?_, ?_⟩
  · rw [classify_similarity, if_pos h]
  · rw [classify_similarity, if_neg (by linarith), if_pos h1]
  · rw [classify_similarity, if_neg (by linarith), if_neg (by linarith)]
  · rw [band_label, if_pos h]
  · rw [band_label, if_neg (by linarith), if_pos h1]
  · rw [band_label, if_neg (by linarith), if_neg (by linarith)]
  · rw [classify_similarity, if_pos (by norm_num)]
  · rw [classify_similarity, if_neg (by norm_num), if_pos (by norm_num)]
  · rw [classify_similarity, if_neg (by norm_num), if_pos (by norm_num)]
  · rw [classify_similarity, if_neg (by norm_num), if_neg (by norm_num)]

/-- Witness for claim C7 at the concrete score 100. -/
theorem claim_c7_classifier_bands_witness : classify_similarity 100 = "duplicate" :=
  (claim_c7_classifier_bands.1 100).1 (by norm_num)

/-- Claim C2 counterexample: the similarity engine is not symmetric;
swapping the inputs tide and diet changes the score from 25 to 50. -/
theorem claim_c2_symmetry_counterexample :
    similarity_percentage "tide" "diet" = 25 ∧
    similarity_percentage "diet" "tide" = 50 ∧
    similarity_percentage "tide" "diet" ≠ similarity_percentage "diet" "tide" := by
  with_unfolding_all decide

/-- Claim C2 as amended: the similarity engine gives equal scores in
both argument orders whenever the two inputs have the same normalised
form; for inputs with distinct normalised forms the two orders can
disagree. -/
theorem claim_c2_symmetry_amended (a b : String) (h : cleanLower a = cleanLower b) :
    similarity_percentage a b = similarity_percentage b a := by
  unfold similarity_percentage
  rw [h]

/-- Witness for the amended claim C2 on two raw strings with one
normalised form. -/
theorem claim_c2_symmetry_amended_witness :
    similarity_percentage "Hi" " hi " = similarity_percentage " hi " "Hi" :=
  claim_c2_symmetry_amended "Hi" " hi " (by decide)

/-- Claim C4 counterexample: the text whose normalised form is the junk
label spelt with an apostrophe scores one fifth, not zero, because the
junk set of the source holds the spelling without the apostrophe. -/
theorem claim_c4_junk_counterexample :
    normL bloomAposLabel.data = bloomAposLabel.data ∧
    question_confidence bloomAposLabel = 1/5 ∧
    question_confidence bloomAposLabel ≠ 0 := by
  with_unfolding_all decide

/-- Claim C4 as amended: for every text whose normalised form is one of
the junk labels of the source junk set, spelt exactly as the source
spells them, the confidence scorer returns zero. -/
theorem claim_c4_junk_zero_amended (t : String) (h : normL t.data ∈ junkLabels) :
    question_confidence t = 0 := by
  have hmain : normL (stripPy t.data) ∈ junkLabels := by
    rw [normL_stripPy]
    exact h
  by_cases he : stripPy t.data = []
  · exfalso
    have hnil : normL t.data = [] := by
      unfold normL
      rw [show stripPy t.data = [] from he]
      rfl
    rw [hnil] at h
    exact absurd h (by decide)
  · simp only [question_confidence]
    rw [if_neg he, if_pos hmain]

/-- Witness for the amended claim C4 at the junk label Marks. -/
theorem claim_c4_junk_zero_amended_witness : question_confidence "Marks" = 0 :=
  claim_c4_junk_zero_amended "Marks" (by decide)

/-- Claim C6: normalize_marks only ever returns none or one of the four
values 2, 4, 8 and 16; the stated examples hold, digits beat number
words, and the number words are tried in their fixed priority order. -/
theorem claim_c6_normalize_marks :
    (∀ (raw : String) (r : Nat),
      normalize_marks raw = some r → r = 2 ∨ r = 4 ∨ r = 8 ∨ r = 16) ∧
    normalize_marks "8 Marks" = some 8 ∧
    normalize_marks "eight" = some 8 ∧
    normalize_marks "ten" = none ∧
    normalize_marks "fourteen two" = some 2 ∧
    normalize_marks "two 4" = some 4 := by
  refine ⟨?_, by decide, by decide, by decide, by decide, by decide⟩
  intro raw r h
  simp only [normalize_marks] at h
  cases hd : digitTokSearch (cleanLowerL raw.data) with
  | some v =>
    rw [hd] at h
    obtain ⟨i, _, hv⟩ := List.exists_of_findSome?_eq_some hd
    unfold tokAt at hv
    by_cases hb : preBdry (cleanLowerL raw.data) i = true
    · rw [if_pos hb] at hv
      obtain ⟨wv, hw, hwv⟩ := List.exists_of_findSome?_eq_some hv
      have hval : wv.2 = v := by
        by_cases hc : (isPre wv.1 ((cleanLowerL raw.data).drop i) &&
            postBdry (cleanLowerL raw.data) (i + wv.1.length)) = true
        · rw [if_pos hc] at hwv
          exact Option.some.inj hwv
        · rw [if_neg hc] at hwv
          exact absurd hwv (by simp)
      have hr : v = r := Option.some.inj h
      simp only [digitToks, List.mem_cons, List.not_mem_nil, or_false] at hw
      rcases hw with h1 | h1 | h1 | h1 <;>
        · subst h1
          rw [← hr, ← hval]
          simp
    · rw [if_neg hb] at hv
      exact absurd hv (by simp)
  | none =>
    rw [hd] at h
    obtain ⟨wv, hw, hwv⟩ := List.exists_of_findSome?_eq_some h
    have hval : wv.2 = r := by
      by_cases hc : subIn wv.1 (cleanLowerL raw.data) = true
      · rw [if_pos hc] at hwv
        exact Option.some.inj hwv
      · rw [if_neg hc] at hwv
        exact absurd hwv (by simp)
    simp only [wordToks, List.mem_cons, List.not_mem_nil, or_false] at hw
    rcases hw with h1 | h1 | h1 | h1 <;>
      · subst h1
        rw [← hval]
        simp

/-- Witness for claim C6 at the input 8 Marks. -/
theorem claim_c6_normalize_marks_witness : (8 : Nat) = 2 ∨ 8 = 4 ∨ 8 = 8 ∨ 8 = 16 :=
  claim_c6_normalize_marks.1 "8 Marks" 8 (by decide)

/-- Claim C10: the standalone-marks pattern accepts a zero cell and any
other digit value; a zero marks state prints as the empty string just as
an unset state does, while an out-of-domain value such as five is carried
into records verbatim, as the concrete fallback extraction run shows. -/
theorem claim_c10_zero_marks_carry :
    marks_from_text "0 marks" = some 0 ∧
    marks_from_text "5 marks" = some 5 ∧
    marksRawStr (some 0) = "" ∧
    marksRawStr none = "" ∧
    marksRawStr (some 5) = "5" ∧
    (parse_any_csv_questions gMarksZero false).map (fun r => (r.question, r.marks_raw)) =
      [("what is a binary tree used for?", ""), ("what is a linked list used for?", "5")] := by
  with_unfolding_all decide

theorem structScan_skip (pre rest : List String) (cur : Option Nat)
    (hpre : ∀ y ∈ pre, marks_from_text y = none) :
    structMarksScan (pre ++ rest) cur = structMarksScan rest cur := by
  induction pre with
  | nil => rfl
  | cons y ys ih =>
    have hy : marks_from_text y = none := hpre y (by simp)
    rw [List.cons_append]
    show (match marks_from_text y with
      | some m => some m
      | none => structMarksScan (ys ++ rest) cur) = structMarksScan rest cur
    rw [hy]
    exact ih (fun z hz => hpre z (by simp [hz]))

theorem fbFold_fst (cells : List String) :
    ∀ st : Option Nat × List CandidateRecord,
      (cells.foldl fbStep st).1 = cells.foldl mStep st.1 := by
  induction cells with
  | nil => intro st; rfl
  | cons x xs ih =>
    intro st
    rw [List.foldl_cons, List.foldl_cons, ih]
    have hfst : (fbStep st x).1 = mStep st.1 x := by
      unfold fbStep mStep
      cases marks_from_text x with
      | some m => rfl
      | none =>
        dsimp only
        split <;> rfl
    rw [hfst]

theorem mFold_skip (pre : List String) (cur : Option Nat)
    (hpre : ∀ y ∈ pre, marks_from_text y = none) :
    pre.foldl mStep cur = cur := by
  induction pre with
  | nil => rfl
  | cons y ys ih =>
    have hy : marks_from_text y = none := hpre y (by simp)
    rw [List.foldl_cons]
    have : mStep cur y = cur := by unfold mStep; rw [hy]
    rw [this]
    exact ih (fun z hz => hpre z (by simp [hz]))

/-- Claim C8: in structured mode the first standalone-marks cell of a
row sets the state and no later cell of the row can change it, whatever
the rest of the row holds; in fallback mode the scan continues past the
match, so the rest of the row is still processed from the updated
state. -/
theorem claim_c8_marks_scan_modes (pre post : List String) (x : String)
    (cur : Option Nat) (m : Nat)
    (hpre : ∀ y ∈ pre, marks_from_text y = none)
    (hx : marks_from_text x = some m) :
    structMarksScan (pre ++ x :: post) cur = some m ∧
    (fallbackRow (pre ++ x :: post) cur).1 = (fallbackRow post (some m)).1 := by
  constructor
  · rw [structScan_skip pre _ cur hpre]
    show (match marks_from_text x with
      | some mm => some mm
      | none => structMarksScan post cur) = some m
    rw [hx]
  · unfold fallbackRow
    rw [fbFold_fst, fbFold_fst]
    rw [List.foldl_append, mFold_skip pre cur hpre, List.foldl_cons]
    have : mStep cur x = some m := by unfold mStep; rw [hx]
    rw [this]

/-- Witness for claim C8: the row holding the cells 2 marks then
4 marks leaves the structured state at two and hands the fallback scan
of the rest of the row the updated state. -/
theorem claim_c8_marks_scan_modes_witness :
    structMarksScan ("2 marks" :: ["4 marks"]) none = some 2 ∧
    (fallbackRow ("2 marks" :: ["4 marks"]) none).1 = (fallbackRow ["4 marks"] (some 2)).1 :=
  claim_c8_marks_scan_modes [] ["4 marks"] "2 marks" none 2 (by simp) (by decide)

theorem optFold_char (p : Nat → Bool) (ks : List Nat) :
    ∀ s : Option Nat,
      ks.foldl (fun o k => if o = none ∧ p k = true then some k else o) s =
        (match s with
         | some x => some x
         | none => ks.find? p) := by
  induction ks with
  | nil =>
    intro s
    rw [List.foldl_nil]
    cases s with
    | some x => rfl
    | none => rfl
  | cons k ks ih =>
    intro s
    rw [List.foldl_cons, ih]
    cases s with
    | some x =>
      rw [if_neg (fun hcon => Option.noConfusion hcon.1)]
    | none =>
      dsimp only
      rw [List.find?_cons]
      cases hp : p k with
      | true =>
        rw [if_pos ⟨rfl, rfl⟩]
      | false =>
        rw [if_neg (fun hcon => by exact absurd hcon.2 (by simp))]

theorem roleFold_proj (hdr : List (List Char)) (ks : List Nat) :
    ∀ st : Option Nat × Option Nat × Option Nat × Option Nat,
      ks.foldl (roleStep hdr) st =
        (ks.foldl (fun o k => if o = none ∧ subIn aKw (hdr.getD k []) = true then some k else o) st.1,
         ks.foldl (fun o k => if o = none ∧ subIn bKw (hdr.getD k []) = true then some k else o) st.2.1,
         ks.foldl (fun o k =>
           if o = none ∧ (subIn uKw (hdr.getD k []) || subIn tKw (hdr.getD k [])) = true
           then some k else o) st.2.2.1,
         ks.foldl (fun o k =>
           if o = none ∧
               (subIn mKw (hdr.getD k []) || subIn mKw2 (hdr.getD k []) || subIn sKw (hdr.getD k [])) = true
           then some k else o) st.2.2.2) := by
  induction ks with
  | nil => intro st; rfl
  | cons k ks ih =>
    intro st
    rw [List.foldl_cons, ih]
    rfl

/-- Claim C3 as amended: in the selected header row each of the four
roles is assigned the first column, scanning left to right, among the
next eleven columns to the right of the question column, capped at the
grid width, whose header contains the role keyword; the role is none
exactly when no column of that eleven-column window matches, and the
window is the half-open range from the next column to the smaller of
question column plus twelve and the column count. -/
theorem claim_c3_role_window_amended (hdr : List (List Char)) (cols c : Nat) :
    (roleScan hdr cols c).1 =
      (roleWindow c cols).find? (fun k => subIn aKw (hdr.getD k [])) ∧
    (roleScan hdr cols c).2.1 =
      (roleWindow c cols).find? (fun k => subIn bKw (hdr.getD k [])) ∧
    (roleScan hdr cols c).2.2.1 =
      (roleWindow c cols).find? (fun k => subIn uKw (hdr.getD k []) || subIn tKw (hdr.getD k [])) ∧
    (roleScan hdr cols c).2.2.2 =
      (roleWindow c cols).find? (fun k =>
        subIn mKw (hdr.getD k []) || subIn mKw2 (hdr.getD k []) || subIn sKw (hdr.getD k [])) ∧
    roleWindow c cols = List.range' (c + 1) (min (c + 12) cols - (c + 1)) := by
  refine ⟨?_, ?_, ?_, ?_, rfl⟩
  · rw [roleScan, roleFold_proj]
    exact optFold_char _ _ none
  · rw [roleScan, roleFold_proj]
    exact optFold_char _ _ none
  · rw [roleScan, roleFold_proj]
    exact optFold_char _ _ none
  · rw [roleScan, roleFold_proj]
    exact optFold_char _ _ none

/-- Claim C3 counterexample: with the answer header sitting exactly
twelve columns to the right of the question column, inside the grid and
inside the twelve-column window the claim describes, the block assigns
no answer column. -/
theorem claim_c3_window_counterexample :
    (roleScan hdr13 13 0).1 = none ∧
    subIn aKw (hdr13.getD 12 []) = true ∧
    12 ≤ 0 + 12 ∧ (12 : Nat) < 13 := by
  decide

theorem bestOf_fold (g : Grid) :
    ∀ (t : List Nat) (h : Nat), List.Pairwise (· < ·) (h :: t) →
      (bestOf g h t = h ∨ bestOf g h t ∈ t) ∧
      ∀ x ∈ h :: t, qCount g x ≤ qCount g (bestOf g h t) ∧
        (qCount g x = qCount g (bestOf g h t) → bestOf g h t ≤ x) := by
  intro t
  induction t with
  | nil =>
    intro h _
    refine ⟨Or.inl rfl, ?_⟩
    intro x hx
    rw [List.mem_singleton] at hx
    subst hx
    exact ⟨le_refl _, fun _ => le_refl _⟩
  | cons r rest ih =>
    intro h hp
    have hstep : bestOf g h (r :: rest) =
        bestOf g (if qCount g h < qCount g r then r else h) rest := by
      unfold bestOf
      rw [List.foldl_cons]
    have hhr : h < r := (List.pairwise_cons.mp hp).1 r (by simp)
    have hrr := (List.pairwise_cons.mp hp).2
    have hrlt := (List.pairwise_cons.mp hrr).1
    rw [hstep]
    by_cases hc : qCount g h < qCount g r
    · rw [if_pos hc]
      obtain ⟨hmem, hall⟩ := ih r hrr
      constructor
      · rcases hmem with he | he
        · exact Or.inr (by simp [he])
        · exact Or.inr (by simp [he])
      · intro x hx
        rcases List.mem_cons.mp hx with hxh | hx2
        · subst hxh
          have hr2 := hall r (by simp)
          refine ⟨le_trans (le_of_lt hc) hr2.1, fun he => ?_⟩
          exfalso
          have := hr2.1
          omega
        · exact hall x hx2
    · rw [if_neg hc]
      have hp2 : List.Pairwise (· < ·) (h :: rest) := by
        rw [List.pairwise_cons]
        exact ⟨fun z hz => lt_trans hhr (hrlt z hz), (List.pairwise_cons.mp hrr).2⟩
      obtain ⟨hmem, hall⟩ := ih h hp2
      constructor
      · rcases hmem with he | he
        · exact Or.inl he
        · exact Or.inr (by simp [he])
      · intro x hx
        rcases List.mem_cons.mp hx with hxh | hx2
        · subst hxh
          exact hall x (by simp)
        · rcases List.mem_cons.mp hx2 with hxr | hx3
          · subst hxr
            have hh2 := hall h (by simp)
            refine ⟨le_trans (not_lt.mp hc) hh2.1, fun he => ?_⟩
            have hle : bestOf g h rest ≤ h := by
              apply hh2.2
              have h1 := hh2.1
              have h2 := not_lt.mp hc
              omega
            exact le_trans hle (le_of_lt hhr)
          · exact hall x (by simp [hx3])

/-- Claim C5: the header detector only looks at the first 120 rows; a
row of that range is a candidate exactly when one of its cells contains
the keyword, and the selected row is a candidate carrying the greatest
keyword count, the earliest such row when several tie. -/
theorem claim_c5_header_selection (g : Grid) (b : Nat)
    (hb : bestHeader g = some b) :
    b ∈ headerRowsOf g ∧
    b < min (gRows g) 120 ∧
    (∀ r : Nat, r ∈ headerRowsOf g ↔
      (r < min (gRows g) 120 ∧
        (List.range (gCols g)).any (fun c => subIn qKw (normCell g r c)) = true)) ∧
    (∀ r ∈ headerRowsOf g, qCount g r ≤ qCount g b ∧ (qCount g r = qCount g b → b ≤ r)) := by
  have hchar : ∀ r : Nat, r ∈ headerRowsOf g ↔
      (r < min (gRows g) 120 ∧
        (List.range (gCols g)).any (fun c => subIn qKw (normCell g r c)) = true) := by
    intro r
    unfold headerRowsOf
    rw [List.mem_filter, List.mem_range]
  unfold bestHeader at hb
  cases hhr : headerRowsOf g with
  | nil => rw [hhr] at hb; exact absurd hb (by simp)
  | cons h t =>
    rw [hhr] at hb hchar
    have hbv : bestOf g h t = b := Option.some.inj hb
    have hpw : List.Pairwise (· < ·) (h :: t) := by
      rw [← hhr]
      unfold headerRowsOf
      exact List.Pairwise.sublist (List.filter_sublist _) (List.pairwise_lt_range _)
    obtain ⟨hmem, hall⟩ := bestOf_fold g t h hpw
    have hbm : b ∈ h :: t := by
      rcases hmem with he | he
      · rw [hbv] at he
        rw [he]
        simp
      · rw [hbv] at he
        simp [he]
    refine ⟨hbm, ((hchar b).mp hbm).1, hchar, ?_⟩
    intro r hr
    rw [← hbv]
    exact hall r hr

/-- Witness for claim C5 on a concrete grid with two candidate rows of
keyword counts two and one: the detector picks row one and row two has
no greater count. -/
theorem claim_c5_header_selection_witness :
    qCount gHdrW 2 ≤ qCount gHdrW 1 :=
  ((claim_c5_header_selection gHdrW 1 (by decide)).2.2.2 2 (by decide)).1

theorem btFold_spec (q : String) :
    ∀ (corpus : List (String × String)) (acc : ℚ × String × String),
      acc.1 ≤ (corpus.foldl (btStep q) acc).1 ∧
      (∀ p ∈ corpus, similarity_percentage q p.1 ≤ (corpus.foldl (btStep q) acc).1) ∧
      (corpus.foldl (btStep q) acc = acc ∨
        ∃ pre p post, corpus = pre ++ p :: post ∧
          p.1 = (corpus.foldl (btStep q) acc).2.1 ∧
          p.2 = (corpus.foldl (btStep q) acc).2.2 ∧
          similarity_percentage q p.1 = (corpus.foldl (btStep q) acc).1 ∧
          acc.1 < (corpus.foldl (btStep q) acc).1 ∧
          ∀ p2 ∈ pre, similarity_percentage q p2.1 < (corpus.foldl (btStep q) acc).1) := by
  intro corpus
  induction corpus with
  | nil =>
    intro acc
    exact ⟨le_refl _, by simp, Or.inl rfl⟩
  | cons hd tl ih =>
    intro acc
    have hstep : (hd :: tl).foldl (btStep q) acc = tl.foldl (btStep q) (btStep q acc hd) :=
      List.foldl_cons _ _
    by_cases hc : acc.1 < similarity_percentage q hd.1
    · have hbs : btStep q acc hd = (similarity_percentage q hd.1, hd.1, hd.2) := by
        unfold btStep
        rw [if_pos hc]
      obtain ⟨h1, h2, h3⟩ := ih (btStep q acc hd)
      rw [hbs] at h1 h2 h3
      rw [hstep, hbs]
      refine ⟨le_trans (le_of_lt hc) h1, ?_, ?_⟩
      · intro p hp
        rcases List.mem_cons.mp hp with he | he
        · subst he
          exact h1
        · exact h2 p he
      · rcases h3 with he | ⟨pre, p, post, hsplit, ha, hb, hs, hlt, hall⟩
        · refine Or.inr ⟨[], hd, tl, rfl, ?_, ?_, ?_, ?_, ?_⟩
          · rw [he]
          · rw [he]
          · rw [he]
          · rw [he]
            exact hc
          · intro p2 hp2
            exact absurd hp2 (List.not_mem_nil p2)
        · refine Or.inr ⟨hd :: pre, p, post, by rw [hsplit, List.cons_append], ha, hb, hs, ?_, ?_⟩
          · exact lt_trans hc hlt
          · intro p2 hp2
            rcases List.mem_cons.mp hp2 with he2 | he2
            · subst he2
              exact hlt
            · exact hall p2 he2
    · have hbs : btStep q acc hd = acc := by
        unfold btStep
        rw [if_neg hc]
      obtain ⟨h1, h2, h3⟩ := ih (btStep q acc hd)
      rw [hbs] at h1 h2 h3
      rw [hstep, hbs]
      refine ⟨h1, ?_, ?_⟩
      · intro p hp
        rcases List.mem_cons.mp hp with he | he
        · subst he
          exact le_trans (not_lt.mp hc) h1
        · exact h2 p he
      · rcases h3 with he | ⟨pre, p, post, hsplit, ha, hb, hs, hlt, hall⟩
        · exact Or.inl he
        · refine Or.inr ⟨hd :: pre, p, post, by rw [hsplit, List.cons_append], ha, hb, hs, hlt, ?_⟩
          intro p2 hp2
          rcases List.mem_cons.mp hp2 with he2 | he2
          · subst he2
            exact lt_of_le_of_lt (not_lt.mp hc) hlt
          · exact hall p2 he2

/-- Claim C9 as amended: the best score dominates every corpus
comparison; whenever the best score is nonzero the reported closest
text and its source label come from the first corpus entry reaching
that score, every earlier entry scoring strictly less; when every
comparison scores zero the reported fields stay empty strings, and the
matched-college field repeats the best source label only when the best
score reaches fifty, else it is empty. -/
theorem claim_c9_closest_match_amended (q : String) (corpus : List (String × String)) :
    (∀ p ∈ corpus, similarity_percentage q p.1 ≤ (bestTriple q corpus).1) ∧
    ((bestTriple q corpus).1 ≠ 0 →
      ∃ pre p post, corpus = pre ++ p :: post ∧
        p.1 = (bestTriple q corpus).2.1 ∧
        p.2 = (bestTriple q corpus).2.2 ∧
        similarity_percentage q p.1 = (bestTriple q corpus).1 ∧
        ∀ p2 ∈ pre, similarity_percentage q p2.1 < (bestTriple q corpus).1) ∧
    ((bestTriple q corpus).1 = 0 → (bestTriple q corpus).2.1 = "" ∧ (bestTriple q corpus).2.2 = "") ∧
    matchedCollege q corpus =
      (if 50 ≤ (bestTriple q corpus).1 then (bestTriple q corpus).2.2 else "") := by
  obtain ⟨h1, h2, h3⟩ := btFold_spec q corpus (0, "", "")
  refine ⟨h2, ?_, ?_, rfl⟩
  · intro hne
    rcases h3 with he | ⟨pre, p, post, hsplit, ha, hb, hs, _, hall⟩
    · exfalso
      apply hne
      show (corpus.foldl (btStep q) (0, "", "")).1 = 0
      rw [he]
    · exact ⟨pre, p, post, hsplit, ha, hb, hs, hall⟩
  · intro hz
    rcases h3 with he | ⟨_, _, _, _, _, _, _, hlt, _⟩
    · constructor
      · show (corpus.foldl (btStep q) (0, "", "")).2.1 = ""
        rw [he]
      · show (corpus.foldl (btStep q) (0, "", "")).2.2 = ""
        rw [he]
    · exfalso
      have hzz : (List.foldl (btStep q) (0, "", "") corpus).1 = 0 := hz
      rw [hzz] at hlt
      simp at hlt

/-- Witness for the amended claim C9 on a one-entry corpus scoring one
hundred. -/
theorem claim_c9_closest_match_amended_witness :
    ∃ pre p post, [("hello", "C1")] = pre ++ p :: post ∧
      p.1 = (bestTriple "hello" [("hello", "C1")]).2.1 ∧
      p.2 = (bestTriple "hello" [("hello", "C1")]).2.2 ∧
      similarity_percentage "hello" p.1 = (bestTriple "hello" [("hello", "C1")]).1 ∧
      ∀ p2 ∈ pre, similarity_percentage "hello" p2.1 < (bestTriple "hello" [("hello", "C1")]).1 :=
  (claim_c9_closest_match_amended "hello" [("hello", "C1")]).2.1
    (by with_unfolding_all decide)

/-- Claim C9 counterexample: against the one-entry corpus abc every
comparison with xyz scores zero, so the reported closest text is the
empty string rather than the highest-scoring corpus entry abc; and for
helb against hello world the best score stays below fifty, so the
reported college is empty rather than the best entry source label. -/
theorem claim_c9_closest_match_counterexample :
    bestTriple "xyz" [("abc", "CollegeA")] = (0, "", "") ∧
    ("" : String) ≠ "abc" ∧
    bestTriple "help" [("hello world", "CollegeB")] = (40, "hello world", "CollegeB") ∧
    matchedCollege "help" [("hello world", "CollegeB")] = "" ∧
    ("" : String) ≠ "CollegeB" := by
  with_unfolding_all decide

theorem containsIff (l : List Nat) (a : Nat) : l.contains a = true ↔ a ∈ l := by
  simp [List.contains]

theorem memRange1 (s n m : Nat) : m ∈ List.range' s n ↔ s ≤ m ∧ m < s + n := by
  rw [List.mem_range']
  constructor
  · rintro ⟨i, hi, rfl⟩
    omega
  · rintro ⟨h1, h2⟩
    exact ⟨m - s, by omega, by omega⟩

theorem dsf_zero (s : List Char) (i j : Nat)
    (h : ¬(chAt s j = chAt s i ∧ isPopular s (chAt s i) = false)) : dsf s i j = 0 := by
  cases i with
  | zero =>
    cases j with
    | zero => exact if_neg h
    | succ j => exact if_neg h
  | succ i =>
    cases j with
    | zero => exact if_neg h
    | succ j => exact if_neg h

theorem dsf_le (s : List Char) : ∀ i j, dsf s i j ≤ i + 1 := by
  intro i
  induction i with
  | zero =>
    intro j
    cases j with
    | zero =>
      simp only [dsf]
      split <;> omega
    | succ j =>
      simp only [dsf]
      split <;> omega
  | succ i ih =>
    intro j
    cases j with
    | zero =>
      simp only [dsf]
      split <;> omega
    | succ j =>
      simp only [dsf]
      split
      · have := ih j
        omega
      · omega

theorem dsf_le_diagL (s : List Char) : ∀ i j, dsf s i j ≤ dsf s i i := by
  intro i
  induction i with
  | zero =>
    intro j
    cases j with
    | zero => exact le_refl _
    | succ j =>
      simp only [dsf]
      split
      · rename_i hcond
        rw [if_pos (by simp [hcond.1, hcond.2])]
      · omega
  | succ i ih =>
    intro j
    cases j with
    | zero =>
      simp only [dsf]
      split
      · rename_i hcond
        rw [if_pos (by simp [hcond.1, hcond.2])]
        omega
      · omega
    | succ j =>
      simp only [dsf]
      split
      · rename_i hcond
        rw [if_pos (by simp [hcond.1, hcond.2])]
        have := ih j
        omega
      · omega

theorem dsf_le_diagR (s : List Char) : ∀ i j, dsf s i j ≤ dsf s j j := by
  intro i
  induction i with
  | zero =>
    intro j
    cases j with
    | zero => exact le_refl _
    | succ j =>
      simp only [dsf]
      split
      · rename_i hcond
        have hp : isPopular s (chAt s (j + 1)) = false := by
          rw [hcond.1]
          exact hcond.2
        rw [if_pos (by simp [hp])]
        omega
      · omega
  | succ i ih =>
    intro j
    cases j with
    | zero =>
      simp only [dsf]
      split
      · rename_i hcond
        have hp : isPopular s (chAt s 0) = false := by
          rw [hcond.1]
          exact hcond.2
        rw [if_pos (by simp [hp])]
      · omega
    | succ j =>
      simp only [dsf]
      split
      · rename_i hcond
        have hp : isPopular s (chAt s (j + 1)) = false := by
          rw [hcond.1]
          exact hcond.2
        rw [if_pos (by simp [hp])]
        have := ih j
        omega
      · omega

theorem mrun_ge (s : List Char) : ∀ k j, j < k → dsf s j j ≤ mrun s k := by
  intro k
  induction k with
  | zero =>
    intro j hj
    omega
  | succ k ih =>
    intro j hj
    rcases Nat.lt_succ_iff_lt_or_eq.mp hj with h | h
    · exact le_trans (ih j h) (le_max_left _ _)
    · subst h
      exact le_max_right _ _

theorem jsD_pop (s : List Char) (i : Nat) (h : isPopular s (chAt s i) = true) :
    jsD s i = [] := by
  unfold jsD rowIdx b2jOf
  rw [if_pos h]
  rfl

theorem jsD_surv (s : List Char) (i : Nat) (h : isPopular s (chAt s i) = false) :
    jsD s i = (List.range s.length).filter (fun j => chAt s j == chAt s i) := by
  unfold jsD rowIdx b2jOf
  rw [if_neg (by rw [h]; exact Bool.false_ne_true)]
  unfold positionsOf
  rw [List.filter_eq_self.mpr]
  intro j hj
  rw [List.mem_filter, List.mem_range] at hj
  simp [hj.1]

theorem jsD_memIff (s : List Char) (i : Nat) (h : isPopular s (chAt s i) = false) (j : Nat) :
    j ∈ jsD s i ↔ (j < s.length ∧ chAt s j = chAt s i) := by
  rw [jsD_surv s i h, List.mem_filter, List.mem_range]
  simp

theorem jsD_split (s : List Char) (i : Nat) (hi : i < s.length)
    (h : isPopular s (chAt s i) = false) :
    jsD s i =
      ((List.range i).filter (fun j => chAt s j == chAt s i)) ++
        i :: ((List.range' (i + 1) (s.length - (i + 1))).filter
          (fun j => chAt s j == chAt s i)) := by
  rw [jsD_surv s i h]
  have hsplit : List.range s.length =
      List.range i ++ i :: List.range' (i + 1) (s.length - (i + 1)) := by
    rw [List.range_eq_range']
    have h1 : List.range' 0 i ++ List.range' i (s.length - i) = List.range' 0 s.length := by
      have := List.range'_append_1 0 i (s.length - i)
      rw [show s.length - i + i = s.length from by omega, Nat.zero_add] at this
      exact this
    rw [← h1, List.range_eq_range']
    have h2 : List.range' i (s.length - i) = i :: List.range' (i + 1) (s.length - (i + 1)) := by
      rw [show s.length - i = (s.length - (i + 1)) + 1 from by omega, List.range'_succ]
    rw [h2]
  rw [hsplit, List.filter_append, List.filter_cons]
  rw [if_pos (by simp)]

theorem rowVal_congr (f g : Nat → Nat) (h : ∀ x, f x = g x) (j : Nat) :
    rowVal f j = rowVal g j := by
  cases j with
  | zero => rfl
  | succ j =>
    simp only [rowVal]
    rw [h j]

theorem rowVal_jval (s : List Char) (i j : Nat) (hj : j < s.length)
    (hc : chAt s j = chAt s i) (hp : isPopular s (chAt s i) = false) :
    rowVal (jval s i) j = dsf s i j := by
  cases i with
  | zero =>
    cases j with
    | zero =>
      simp only [rowVal, jval]
      rw [dsf, if_pos (by simp [hp])]
    | succ j =>
      simp only [rowVal, jval]
      rw [dsf, if_pos ⟨hc, hp⟩]
  | succ i =>
    cases j with
    | zero =>
      simp only [rowVal, jval]
      rw [dsf, if_pos ⟨hc, hp⟩]
    | succ j =>
      have hR : dsf s (i + 1) (j + 1) = dsf s i j + 1 := by
        rw [dsf, if_pos ⟨hc, hp⟩]
      rw [hR]
      simp only [rowVal, jval]
      by_cases hm : j ∈ jsD s i
      · rw [if_pos ((containsIff _ _).mpr hm)]
      · rw [if_neg (fun hcc => hm ((containsIff _ _).mp hcc))]
        have hz : dsf s i j = 0 := by
          apply dsf_zero
          intro hcon
          exact hm ((jsD_memIff s i hcon.2 j).mpr ⟨by omega, hcon.1⟩)
        rw [hz]

theorem noBump (i : Nat) (j2l : Nat → Nat) :
    ∀ (js : List Nat) (best : Match3),
      (∀ j ∈ js, rowVal j2l j ≤ best.ms) → js.foldl (bumpBest i j2l) best = best := by
  intro js
  induction js with
  | nil =>
    intro best _
    rfl
  | cons j js ih =>
    intro best hb
    rw [List.foldl_cons]
    have h1 : bumpBest i j2l best j = best := by
      simp only [bumpBest]
      rw [if_neg (not_lt.mpr (hb j (by simp)))]
    rw [h1]
    exact ih best (fun x hx => hb x (by simp [hx]))

theorem dpStep_inv (s : List Char) (i : Nat) (hi : i < s.length)
    (st : (Nat → Nat) × Match3)
    (hA : ∀ j, st.1 j = jval s i j)
    (hB : st.2.mi = st.2.mj)
    (hC : mrun s i ≤ st.2.ms)
    (hD : st.2.mi + st.2.ms ≤ s.length) :
    (∀ j, (dpStep s (b2jOf s) 0 s.length st i).1 j = jval s (i + 1) j) ∧
    (dpStep s (b2jOf s) 0 s.length st i).2.mi = (dpStep s (b2jOf s) 0 s.length st i).2.mj ∧
    mrun s (i + 1) ≤ (dpStep s (b2jOf s) 0 s.length st i).2.ms ∧
    (dpStep s (b2jOf s) 0 s.length st i).2.mi + (dpStep s (b2jOf s) 0 s.length st i).2.ms
      ≤ s.length := by
  have hfst : (dpStep s (b2jOf s) 0 s.length st i).1 =
      fun j => if (jsD s i).contains j then rowVal st.1 j else 0 := rfl
  have hsnd : (dpStep s (b2jOf s) 0 s.length st i).2 =
      (jsD s i).foldl (bumpBest i st.1) st.2 := rfl
  cases hpop : isPopular s (chAt s i) with
  | true =>
    have hempty := jsD_pop s i hpop
    have hdsf0 : dsf s i i = 0 := by
      apply dsf_zero
      intro hcon
      rw [hpop] at hcon
      exact Bool.noConfusion hcon.2
    have hbest : (dpStep s (b2jOf s) 0 s.length st i).2 = st.2 := by
      rw [hsnd, hempty]
      rfl
    refine ⟨?_, ?_, ?_, ?_⟩
    · intro j
      rw [hfst]
      show (if (jsD s i).contains j = true then rowVal st.1 j else 0) = jval s (i + 1) j
      rw [jval, hempty]
      rfl
    · rw [hbest]
      exact hB
    · rw [hbest]
      simp only [mrun]
      rw [hdsf0]
      omega
    · rw [hbest]
      exact hD
  | false =>
    have hsv : isPopular s (chAt s i) = false := hpop
    have hrv : ∀ j, j < s.length → chAt s j = chAt s i → rowVal st.1 j = dsf s i j := by
      intro j hj hc
      rw [rowVal_congr st.1 (jval s i) hA j]
      exact rowVal_jval s i j hj hc hsv
    refine ⟨?_, ?_⟩
    · intro j
      rw [hfst]
      show (if (jsD s i).contains j = true then rowVal st.1 j else 0) = jval s (i + 1) j
      rw [jval]
      by_cases hm : j ∈ jsD s i
      · rw [if_pos ((containsIff _ _).mpr hm), if_pos ((containsIff _ _).mpr hm)]
        have hmem := (jsD_memIff s i hsv j).mp hm
        exact hrv j hmem.1 hmem.2
      · rw [if_neg (fun hcc => hm ((containsIff _ _).mp hcc)),
          if_neg (fun hcc => hm ((containsIff _ _).mp hcc))]
    · have hsplit := jsD_split s i hi hsv
      have hLbound : ∀ j ∈ (List.range i).filter (fun j => chAt s j == chAt s i),
          rowVal st.1 j ≤ st.2.ms := by
        intro j hj
        rw [List.mem_filter, List.mem_range] at hj
        have hcj : chAt s j = chAt s i := by
          have := hj.2
          simpa using this
        have h1 : rowVal st.1 j = dsf s i j := hrv j (lt_trans hj.1 hi) hcj
        rw [h1]
        exact le_trans (dsf_le_diagR s i j) (le_trans (mrun_ge s i j hj.1) hC)
      have hRmem : ∀ j ∈ (List.range' (i + 1) (s.length - (i + 1))).filter
          (fun j => chAt s j == chAt s i),
          rowVal st.1 j ≤ dsf s i i := by
        intro j hj
        rw [List.mem_filter, memRange1] at hj
        have hcj : chAt s j = chAt s i := by
          have := hj.2
          simpa using this
        have hjn : j < s.length := by
          have := hj.1.2
          omega
        have h1 : rowVal st.1 j = dsf s i j := hrv j hjn hcj
        rw [h1]
        exact dsf_le_diagL s i j
      have hk : rowVal st.1 i = dsf s i i := hrv i hi rfl
      rw [hsnd, hsplit, List.foldl_append, List.foldl_cons,
        noBump i st.1 _ st.2 hLbound]
      by_cases hbk : st.2.ms < dsf s i i
      · have hdiag : bumpBest i st.1 st.2 i =
            ⟨i + 1 - dsf s i i, i + 1 - dsf s i i, dsf s i i⟩ := by
          simp only [bumpBest]
          rw [hk, if_pos hbk]
        rw [hdiag, noBump i st.1 _ _ (fun j hj => hRmem j hj)]
        have hle := dsf_le s i i
        refine ⟨rfl, ?_, ?_⟩
        · simp only [mrun]
          exact max_le (by omega) (le_refl _)
        · show i + 1 - dsf s i i + dsf s i i ≤ s.length
          omega
      · have hdiag : bumpBest i st.1 st.2 i = st.2 := by
          simp only [bumpBest]
          rw [hk, if_neg hbk]
        rw [hdiag, noBump i st.1 _ st.2
          (fun j hj => le_trans (hRmem j hj) (not_lt.mp hbk))]
        refine ⟨hB, ?_, hD⟩
        simp only [mrun]
        exact max_le hC (not_lt.mp hbk)

theorem dpFold_inv (s : List Char) :
    ∀ k, k ≤ s.length →
      (∀ j, ((List.range' 0 k).foldl (dpStep s (b2jOf s) 0 s.length)
          (fun _ => 0, ⟨0, 0, 0⟩)).1 j = jval s k j) ∧
      ((List.range' 0 k).foldl (dpStep s (b2jOf s) 0 s.length)
          (fun _ => 0, ⟨0, 0, 0⟩)).2.mi =
        ((List.range' 0 k).foldl (dpStep s (b2jOf s) 0 s.length)
          (fun _ => 0, ⟨0, 0, 0⟩)).2.mj ∧
      mrun s k ≤ ((List.range' 0 k).foldl (dpStep s (b2jOf s) 0 s.length)
          (fun _ => 0, ⟨0, 0, 0⟩)).2.ms ∧
      ((List.range' 0 k).foldl (dpStep s (b2jOf s) 0 s.length)
          (fun _ => 0, ⟨0, 0, 0⟩)).2.mi +
        ((List.range' 0 k).foldl (dpStep s (b2jOf s) 0 s.length)
          (fun _ => 0, ⟨0, 0, 0⟩)).2.ms ≤ s.length := by
  intro k
  induction k with
  | zero =>
    intro _
    exact ⟨fun j => rfl, rfl, le_refl _, by simp⟩
  | succ k ih =>
    intro hk
    have hk2 : k ≤ s.length := by omega
    have hkl : k < s.length := by omega
    obtain ⟨hA, hB, hC, hD⟩ := ih hk2
    have hsplit : List.range' 0 (k + 1) = List.range' 0 k ++ [k] := by
      have := List.range'_append_1 0 k 1
      rw [Nat.zero_add, Nat.add_comm 1 k] at this
      rw [← this, List.range'_one]
    rw [hsplit, List.foldl_append, List.foldl_cons, List.foldl_nil]
    exact dpStep_inv s k hkl _ hA hB hC hD

theorem dpLoop_diag (s : List Char) :
    (dpLoop s (b2jOf s) 0 s.length 0 s.length).mi =
      (dpLoop s (b2jOf s) 0 s.length 0 s.length).mj ∧
    (dpLoop s (b2jOf s) 0 s.length 0 s.length).mi +
      (dpLoop s (b2jOf s) 0 s.length 0 s.length).ms ≤ s.length := by
  have h := dpFold_inv s s.length (le_refl _)
  unfold dpLoop
  rw [Nat.sub_zero]
  exact ⟨h.2.1, h.2.2.2⟩

theorem extBackN_diag (s : List Char) :
    ∀ t k, extBackN s s 0 0 t ⟨t, t, k⟩ = ⟨0, 0, t + k⟩ := by
  intro t
  induction t with
  | zero =>
    intro k
    rw [Nat.zero_add]
    rfl
  | succ t ih =>
    intro k
    show (if 0 < t + 1 ∧ 0 < t + 1 ∧ chAt s (t + 1 - 1) = chAt s (t + 1 - 1) then
        extBackN s s 0 0 t ⟨t + 1 - 1, t + 1 - 1, k + 1⟩
      else ⟨t + 1, t + 1, k⟩) = ⟨0, 0, t + 1 + k⟩
    rw [if_pos ⟨by omega, by omega, rfl⟩]
    rw [show t + 1 - 1 = t from rfl, ih (k + 1)]
    rw [show t + (k + 1) = t + 1 + k from by omega]

theorem extFwdN_diag (s : List Char) :
    ∀ d k, k + d = s.length → extFwdN s s s.length s.length d ⟨0, 0, k⟩ = ⟨0, 0, s.length⟩ := by
  intro d
  induction d with
  | zero =>
    intro k hk
    rw [show k = s.length from by omega]
    rfl
  | succ d ih =>
    intro k hk
    show (if 0 + k < s.length ∧ 0 + k < s.length ∧ chAt s (0 + k) = chAt s (0 + k) then
        extFwdN s s s.length s.length d ⟨0, 0, k + 1⟩
      else ⟨0, 0, k⟩) = ⟨0, 0, s.length⟩
    rw [if_pos ⟨by omega, by omega, rfl⟩]
    exact ih (k + 1) (by omega)

theorem flm_diag (s : List Char) :
    flm s s (b2jOf s) 0 s.length 0 s.length = ⟨0, 0, s.length⟩ := by
  obtain ⟨h1, h2⟩ := dpLoop_diag s
  unfold flm
  have hm : dpLoop s (b2jOf s) 0 s.length 0 s.length =
      (⟨(dpLoop s (b2jOf s) 0 s.length 0 s.length).mi,
        (dpLoop s (b2jOf s) 0 s.length 0 s.length).mi,
        (dpLoop s (b2jOf s) 0 s.length 0 s.length).ms⟩ : Match3) := by
    cases hdp : dpLoop s (b2jOf s) 0 s.length 0 s.length with
    | mk mi mj ms =>
      rw [hdp] at h1
      simp only at h1
      rw [h1]
  rw [hm]
  have hb : extBack s s 0 0
      (⟨(dpLoop s (b2jOf s) 0 s.length 0 s.length).mi,
        (dpLoop s (b2jOf s) 0 s.length 0 s.length).mi,
        (dpLoop s (b2jOf s) 0 s.length 0 s.length).ms⟩ : Match3) =
      ⟨0, 0, (dpLoop s (b2jOf s) 0 s.length 0 s.length).mi +
        (dpLoop s (b2jOf s) 0 s.length 0 s.length).ms⟩ :=
    extBackN_diag s _ _
  rw [hb]
  show extFwdN s s s.length s.length
      (s.length - (0 + ((dpLoop s (b2jOf s) 0 s.length 0 s.length).mi +
        (dpLoop s (b2jOf s) 0 s.length 0 s.length).ms)))
      ⟨0, 0, (dpLoop s (b2jOf s) 0 s.length 0 s.length).mi +
        (dpLoop s (b2jOf s) 0 s.length 0 s.length).ms⟩ = ⟨0, 0, s.length⟩
  exact extFwdN_diag s _ _ (by omega)

theorem ratioM_diag (s : List Char) (hne : s ≠ []) : ratioM s s = s.length := by
  have hn : s.length ≠ 0 := fun hz => hne (List.length_eq_zero.mp hz)
  unfold ratioM
  show matchTotal s s (b2jOf s) ((s.length + s.length) + 1) 0 s.length 0 s.length = s.length
  simp only [matchTotal, flm_diag s]
  rw [if_neg hn, if_neg (by omega), if_neg (by omega)]
  omega

/-- Claim C1: for every string whose normalised form is non-empty, the
similarity engine applied to the string and itself returns exactly one
hundred: the dynamic program of the sequence matcher only ever improves
its best match on the diagonal of a self comparison, and the extension
loops then grow that diagonal match to the whole string even when the
autojunk rule has pruned the index table. -/
theorem claim_c1_self_similarity (a : String) (h : cleanLower a ≠ []) :
    similarity_percentage a a = 100 := by
  simp only [similarity_percentage]
  rw [if_neg (by simp [h])]
  rw [ratioM_diag (cleanLower a) h]
  have hq : (0 : ℚ) < ((cleanLower a).length : ℚ) := by
    exact_mod_cast List.length_pos.mpr h
  rw [show ((cleanLower a).length : ℚ) + ((cleanLower a).length : ℚ) =
      2 * ((cleanLower a).length : ℚ) from by ring]
  rw [div_self (by linarith)]
  norm_num

/-- Witness for claim C1 on a concrete string. -/
theorem claim_c1_self_similarity_witness :
    similarity_percentage "Hello  World" "Hello  World" = 100 :=
  claim_c1_self_similarity "Hello  World" (by decide)
